import Mathlib

/- Verification of the finance-mcp response-normalization pipeline.

The Go source under verification lives in pkg/parser/intraday_prices.go,
internal/validation/symbol.go and internal/tools/intraday_price_stock.go.
The definitions below are a shallow embedding of that code:

* JSON objects decoded by `sonic.Unmarshal(data, &map[string]any{...})` are
  modelled as association lists `List (String × JValue)` (Go map keys are
  unique; lookup is by key).  Go map iteration order is unspecified, so any
  theorem about iteration-order-dependent behaviour is stated for every
  permutation of the entry list.
* `strconv.ParseFloat(s, 64)` is modelled by `goParseFloat`, which accepts
  exactly the strings the Go function accepts (special values, decimal and
  hexadecimal literals, underscore rules, and the overflow range error) and
  returns the exact decoded value as `mant * 2^e2 * 5^e5` instead of the
  rounded binary float (no claim inspects rounded numeric values).
* `strconv.ParseInt(s, 10, 64)` is modelled by `goParseInt` including the
  int64 range check.
* `time.Parse("2006-01-02 15:04:05", s)` is modelled by `parseTimestamp`,
  which replicates Go's layout matching (4-digit year; fixed 2-digit month,
  day, minute and second; 1-or-2-digit hour, since Go's `stdHour` is parsed
  with `fixed = false`; calendar range checks including leap years) and
  returns the instant as a strictly monotone injective encoding of the valid
  date-time tuple (Go's `time.Time.Before` on the parsed values is exactly
  `<` on this encoding).
* `strings.ToLower` / `unicode.IsSpace` are modelled on the character sets
  the repository exercises (ASCII letters for case mapping; the full Unicode
  White_Space set for trimming).
-/

set_option maxHeartbeats 1600000
set_option maxRecDepth 8000

namespace FinanceMCP

/-- Decoded JSON value, the result of Go's dynamic `map[string]any` decode. -/
inductive JValue where
  | str (s : String)
  | num (n : Int)
  | jbool (b : Bool)
  | null
  | arr (elems : List JValue)
  | obj (fields : List (String × JValue))

/-- Go map lookup `m[k]` on a decoded JSON object (keys are unique). -/
def lookupJ (m : List (String × JValue)) (k : String) : Option JValue :=
  match m.find? (fun p => p.1 == k) with
  | some p => some p.2
  | none => none

/-- ASCII case folding, the fragment of `strings.ToLower` the code relies on. -/
def lowerChar (c : Char) : Char :=
  if 'A' ≤ c ∧ c ≤ 'Z' then Char.ofNat (c.toNat + 32) else c

/-- Model of `strings.ToLower` (ASCII fragment). -/
def toLowerStr (s : String) : String := String.mk (s.data.map lowerChar)

/-- Whether `needle` is a leading segment of `hay`. -/
def startsWithList : List Char → List Char → Bool
  | [], _ => true
  | _ :: _, [] => false
  | a :: as, b :: bs => a == b && startsWithList as bs

/-- Model of `strings.Contains hay needle`. -/
def containsList : List Char → List Char → Bool
  | [], needle => needle.isEmpty
  | c :: rest, needle => startsWithList needle (c :: rest) || containsList rest needle

/-- `strings.Contains` on strings. -/
def strContains (hay needle : String) : Bool := containsList hay.data needle.data

/-- The Unicode White_Space set, as recognized by Go's `unicode.IsSpace`. -/
def goIsSpace (c : Char) : Bool :=
  c.toNat = 0x20 ∨ (0x09 ≤ c.toNat ∧ c.toNat ≤ 0x0D) ∨ c.toNat = 0x85 ∨ c.toNat = 0xA0 ∨
  c.toNat = 0x1680 ∨ (0x2000 ≤ c.toNat ∧ c.toNat ≤ 0x200A) ∨ c.toNat = 0x2028 ∨
  c.toNat = 0x2029 ∨ c.toNat = 0x202F ∨ c.toNat = 0x205F ∨ c.toNat = 0x3000

/-- Model of `strings.TrimSpace`. -/
def trimSpace (s : String) : String :=
  String.mk (((s.data.dropWhile goIsSpace).reverse.dropWhile goIsSpace).reverse)

/-- UTF-8 encoding of one character. -/
def charUtf8 (c : Char) : List Nat :=
  if c.toNat < 0x80 then [c.toNat]
  else if c.toNat < 0x800 then [0xC0 + c.toNat / 64, 0x80 + c.toNat % 64]
  else if c.toNat < 0x10000 then
    [0xE0 + c.toNat / 4096, 0x80 + (c.toNat / 64) % 64, 0x80 + c.toNat % 64]
  else
    [0xF0 + c.toNat / 262144, 0x80 + (c.toNat / 4096) % 64,
     0x80 + (c.toNat / 64) % 64, 0x80 + c.toNat % 64]

/-- UTF-8 byte sequence of a character list. -/
def listUtf8 (l : List Char) : List Nat :=
  l.foldr (fun c acc => charUtf8 c ++ acc) []

/-- UTF-8 byte sequence of a string; Go's `len(s)` and `s[i]` act on this. -/
def utf8Bytes (s : String) : List Nat := listUtf8 s.data

/-- The character set `[A-Za-z0-9.]` accepted by the symbol validator
(rune comparisons written on code points). -/
def isValidSymbolChar (c : Char) : Bool :=
  (65 ≤ c.toNat ∧ c.toNat ≤ 90) ∨ (97 ≤ c.toNat ∧ c.toNat ≤ 122) ∨
  (48 ≤ c.toNat ∧ c.toNat ≤ 57) ∨ c.toNat = 46

/-- Model of `validation.ValidateSymbol`: returns the error message on
failure, `none` on success (the symbol is never transformed). -/
def ValidateSymbol (symbol : String) : Option String :=
  let trimmed := trimSpace symbol
  if trimmed.data = [] then some "symbol cannot be empty"
  else if 10 < (utf8Bytes trimmed).length then
    some ("symbol \x27" ++ trimmed ++ "\x27 appears to be invalid (too long)")
  else if trimmed.data.any (fun c => !(isValidSymbolChar c)) then
    some ("symbol \x27" ++ trimmed ++ "\x27 contains invalid characters")
  else none

/-- Decimal digit test. -/
def isDigitC (c : Char) : Bool := '0' ≤ c ∧ c ≤ '9'

/-- Hexadecimal digit test. -/
def isHexDigitC (c : Char) : Bool :=
  isDigitC c ∨ ('a' ≤ lowerChar c ∧ lowerChar c ≤ 'f')

/-- Numeric value of a (hex) digit character. -/
def hexVal (c : Char) : Nat :=
  if isDigitC c then c.toNat - 48 else (lowerChar c).toNat - 87

/-- Result of decoding a `float64` string.  A finite value is kept exactly as
`(-1)^neg * mant * 2^e2 * 5^e5`; the claims under check never inspect the
rounded binary value, only decode success and identity. -/
inductive GoFloat where
  | nan
  | inf (neg : Bool)
  | finite (neg : Bool) (mant : Nat) (e2 e5 : Int)
deriving DecidableEq

/-- State of the mantissa scan of Go's `strconv/atof.go:readFloat`. -/
structure MantState where
  rest : List Char
  sawdot : Bool
  sawdigits : Bool
  mant : Nat
  nd : Nat
  dp : Int

/-- The mantissa loop of `readFloat`: consumes digits, at most one dot, and
underscores (validated separately), accumulating the exact digit value. -/
def scanMant (hex : Bool) : List Char → Bool → Bool → Nat → Nat → Int → MantState
  | [], sd, sg, m, nd, dp => ⟨[], sd, sg, m, nd, dp⟩
  | c :: cs, sd, sg, m, nd, dp =>
    if c = '_' then scanMant hex cs sd sg m nd dp
    else if c = '.' then
      if sd then ⟨c :: cs, sd, sg, m, nd, dp⟩
      else scanMant hex cs true sg m nd (Int.ofNat nd)
    else if (hex && isHexDigitC c) || (!hex && isDigitC c) then
      scanMant hex cs sd true (m * (if hex then 16 else 10) + hexVal c) (nd + 1) dp
    else ⟨c :: cs, sd, sg, m, nd, dp⟩

/-- Digit loop of the exponent part; Go clamps accumulation at 10000. -/
def scanExpDigits : List Char → Nat → (List Char × Nat)
  | [], e => ([], e)
  | c :: cs, e =>
    if isDigitC c then
      scanExpDigits cs (if e < 10000 then e * 10 + (c.toNat - 48) else e)
    else if c = '_' then scanExpDigits cs e
    else (c :: cs, e)

/-- Exponent part after the `e`/`p` marker: optional sign then digits. -/
def scanExp (s : List Char) : Option (List Char × Int) :=
  match s with
  | [] => none
  | c :: cs =>
    let signedRest : Int × List Char :=
      if c = '+' then (1, cs) else if c = '-' then (-1, cs) else (1, c :: cs)
    match signedRest.2 with
    | [] => none
    | d :: _ =>
      if isDigitC d then
        let r := scanExpDigits signedRest.2 0
        some (r.1, signedRest.1 * Int.ofNat r.2)
      else none

/-- Model of `readFloat`: scans a whole decimal or hexadecimal floating-point
literal and returns `(neg, mant, e2, e5)` with value `mant * 2^e2 * 5^e5`,
or `none` when the literal is malformed or not fully consumed. -/
def readFloat (s : List Char) : Option (Bool × Nat × Int × Int) :=
  let signRest : Bool × List Char :=
    match s with
    | '+' :: t => (false, t)
    | '-' :: t => (true, t)
    | t => (false, t)
  let neg := signRest.1
  let hexRest : Bool × List Char :=
    match signRest.2 with
    | '0' :: x :: t => if lowerChar x = 'x' then (true, t) else (false, signRest.2)
    | _ => (false, signRest.2)
  let hx := hexRest.1
  let st := scanMant hx hexRest.2 false false 0 0 0
  if !st.sawdigits then none
  else
    let dp0 : Int := if st.sawdot then st.dp else Int.ofNat st.nd
    match st.rest with
    | c :: cs =>
      if lowerChar c = (if hx then 'p' else 'e') then
        match scanExp cs with
        | none => none
        | some (rem, e) =>
          if rem = [] then
            if hx then some (neg, st.mant, 4 * (dp0 - Int.ofNat st.nd) + e, 0)
            else some (neg, st.mant, dp0 + e - Int.ofNat st.nd, dp0 + e - Int.ofNat st.nd)
          else none
      else none
    | [] =>
      if hx then none
      else some (neg, st.mant, dp0 - Int.ofNat st.nd, dp0 - Int.ofNat st.nd)

/-- Character classes tracked by Go's `underscoreOK`. -/
inductive Saw where
  | caret
  | digit
  | under
  | other
deriving DecidableEq

/-- Main loop of Go's `strconv.underscoreOK`. -/
def underscoreOKLoop (hex : Bool) : List Char → Saw → Bool
  | [], saw => saw ≠ Saw.under
  | c :: cs, saw =>
    if (hex && isHexDigitC c) || (!hex && isDigitC c) then
      underscoreOKLoop hex cs Saw.digit
    else if c = '_' then
      if saw ≠ Saw.digit then false else underscoreOKLoop hex cs Saw.under
    else
      if saw = Saw.under then false else underscoreOKLoop hex cs Saw.other

/-- Model of `strconv.underscoreOK`: underscores only between digits (or
after a base prefix), per the Go literal syntax. -/
def underscoreOK (s : List Char) : Bool :=
  let s1 := match s with
    | c :: t => if c = '-' ∨ c = '+' then t else s
    | [] => s
  match s1 with
  | '0' :: x :: t =>
    if lowerChar x = 'b' ∨ lowerChar x = 'o' ∨ lowerChar x = 'x' then
      underscoreOKLoop (lowerChar x = 'x') t Saw.digit
    else underscoreOKLoop false s1 Saw.caret
  | _ => underscoreOKLoop false s1 Saw.caret

/-- Model of `strconv`'s `special`: case-insensitive NaN and (signed)
infinity, required to span the whole string. -/
def parseFloatSpecial (s : List Char) : Option GoFloat :=
  let low := s.map lowerChar
  if low = "nan".data then some .nan
  else if low = "inf".data ∨ low = "infinity".data then some (.inf false)
  else
    match low with
    | '+' :: t =>
      if t = "inf".data ∨ t = "infinity".data then some (.inf false) else none
    | '-' :: t =>
      if t = "inf".data ∨ t = "infinity".data then some (.inf true) else none
    | _ => none

/-- Whether `mant * 2^e2 * 5^e5 ≥ c`, by exact integer arithmetic. -/
def valGE (mant : Nat) (e2 e5 : Int) (c : Nat) : Bool :=
  c * 2 ^ (-e2).toNat * 5 ^ (-e5).toNat ≤ mant * 2 ^ e2.toNat * 5 ^ e5.toNat

/-- Smallest decimal magnitude that rounds to `+Inf` in `float64` (the
rounding midpoint above the largest finite value); at or above it Go's
`ParseFloat` reports `ErrRange`, which the parser treats as failure. -/
def overflowBound : Nat := 2 ^ 1024 - 2 ^ 970

/-- Model of `strconv.ParseFloat(s, 64)` as used by `processEntry`: `none`
exactly when the Go call returns a non-nil error (syntax or overflow). -/
def goParseFloat (s : String) : Option GoFloat :=
  match parseFloatSpecial s.data with
  | some f => some f
  | none =>
    match readFloat s.data with
    | none => none
    | some (neg, mant, e2, e5) =>
      if s.data.contains '_' && !(underscoreOK s.data) then none
      else if valGE mant e2 e5 overflowBound then none
      else some (.finite neg mant e2 e5)

/-- Model of `strconv.ParseInt(s, 10, 64)`: optional sign, decimal digits
only (no underscores at an explicit base), and the int64 range check. -/
def goParseInt (s : String) : Option Int :=
  match s.data with
  | [] => none
  | c :: t =>
    let signDigits : Bool × List Char :=
      if c = '+' then (false, t) else if c = '-' then (true, t) else (false, c :: t)
    match signDigits.2 with
    | [] => none
    | ds =>
      if ds.all isDigitC then
        let n := ds.foldl (fun a d => a * 10 + (d.toNat - 48)) 0
        if signDigits.1 then
          if n ≤ 2 ^ 63 then some (-(Int.ofNat n)) else none
        else
          if n < 2 ^ 63 then some (Int.ofNat n) else none
      else none

/-- Leap-year rule used by Go's `time` package. -/
def isLeapYear (y : Nat) : Bool := y % 4 = 0 && (y % 100 ≠ 0 || y % 400 = 0)

/-- Days in a month, as Go's `time.daysIn`. -/
def daysInMonth (mo y : Nat) : Nat :=
  if mo = 2 then (if isLeapYear y then 29 else 28)
  else if mo = 4 ∨ mo = 6 ∨ mo = 9 ∨ mo = 11 then 30
  else 31

/-- Strictly monotone injective encoding of an in-range date-time tuple; the
model of the `time.Time` instant produced by `time.Parse` (chronological
order on parsed values is `<` on this number). -/
def mkInstant (y mo d h mi s : Nat) : Nat :=
  ((((y * 13 + mo) * 32 + d) * 24 + h) * 60 + mi) * 60 + s

/-- Digit value of one character, or `none`. -/
def dig (c : Char) : Option Nat :=
  if isDigitC c then some (c.toNat - 48) else none

/-- Two fixed digits (Go's `getnum` with `fixed = true`). -/
def dig2 (a b : Char) : Option Nat := do
  let x ← dig a
  let y ← dig b
  some (x * 10 + y)

/-- Four fixed digits (Go's `stdLongYear`). -/
def dig4 (a b c d : Char) : Option Nat := do
  let x ← dig2 a b
  let y ← dig2 c d
  some (x * 100 + y)

/-- Range validation performed by `time.Parse` after layout matching. -/
def tsFrom (y mo d h mi s : Nat) : Option Nat :=
  if 1 ≤ mo ∧ mo ≤ 12 ∧ 1 ≤ d ∧ d ≤ daysInMonth mo y ∧ h ≤ 23 ∧ mi ≤ 59 ∧ s ≤ 59
  then some (mkInstant y mo d h mi s) else none

/-- Model of `time.Parse("2006-01-02 15:04:05", s)`.  Year, month, day,
minute and second are fixed-width; the hour (`stdHour`) is parsed by Go's
`getnum` with `fixed = false`, so both a 2-digit and a 1-digit hour match. -/
def parseTimestamp (str : String) : Option Nat :=
  match str.data with
  | [y1, y2, y3, y4, a1, m1, m2, a2, d1, d2, a3, h1, h2, a4, n1, n2, a5, s1, s2] =>
    if a1 = '-' ∧ a2 = '-' ∧ a3 = ' ' ∧ a4 = ':' ∧ a5 = ':' then do
      let y ← dig4 y1 y2 y3 y4
      let mo ← dig2 m1 m2
      let d ← dig2 d1 d2
      let h ← dig2 h1 h2
      let mi ← dig2 n1 n2
      let s ← dig2 s1 s2
      tsFrom y mo d h mi s
    else none
  | [y1, y2, y3, y4, a1, m1, m2, a2, d1, d2, a3, h1, a4, n1, n2, a5, s1, s2] =>
    if a1 = '-' ∧ a2 = '-' ∧ a3 = ' ' ∧ a4 = ':' ∧ a5 = ':' then do
      let y ← dig4 y1 y2 y3 y4
      let mo ← dig2 m1 m2
      let d ← dig2 d1 d2
      let h ← dig h1
      let mi ← dig2 n1 n2
      let s ← dig2 s1 s2
      tsFrom y mo d h mi s
    else none
  | _ => none

/-- The raw per-timestamp OHLCV record (five string fields), `parser.OHLCV`. -/
structure OHLCV where
  Open : String
  High : String
  Low : String
  Close : String
  Volume : String
deriving DecidableEq

/-- `parser.MetaData` / `models.MetaData` (six string fields). -/
structure MetaData where
  Information : String
  Symbol : String
  LastRefreshed : String
  Interval : String
  OutputSize : String
  TimeZone : String
deriving DecidableEq

/-- The zero value of `MetaData`. -/
def emptyMetaData : MetaData := ⟨"", "", "", "", "", ""⟩

/-- `models.OHLCVFloat`: the normalized record.  `Timestamp` is the instant
encoding produced by `parseTimestamp`. -/
structure OHLCVFloat where
  Timestamp : Nat
  Open : GoFloat
  High : GoFloat
  Low : GoFloat
  Close : GoFloat
  Volume : Int
deriving DecidableEq

/-- `models.IntradayStockOutput`. -/
structure IntradayStockOutput where
  metaData : MetaData
  timeSeries : List OHLCVFloat
deriving DecidableEq

/-- `parser.AlphaVantageResponse` after `IntradayPrices` ran: metadata plus
the extracted time-series entries (`none` models the nil Go map). -/
structure AlphaVantageResponse where
  metaData : MetaData
  timeSeries : Option (List (String × OHLCV))

/-- Errors produced by `parser.IntradayPrices` before record decoding. -/
inductive UpErr where
  | structuredUnmarshal
  | apiError (v : JValue)
  | apiNote (v : JValue)
  | apiRateLimit (s : String)
  | apiInformation (s : String)
  | noTimeSeries
  | badTimeSeriesFormat

/-- Errors produced by `processEntry` / `ProcessTimeSeries`; each carries the
identifiers the Go error message interpolates. -/
inductive RecErr where
  | invalidTimestamp (ts : String)
  | invalidPrice (field : String) (ts : String)
  | invalidVolume (ts : String)
deriving DecidableEq

/-- Any error of the whole normalization call (classification or decoding). -/
inductive NormErr where
  | upstream (e : UpErr)
  | record (e : RecErr)

/-- Decode one string field of the `MetaData` struct, as `encoding/json`
(and sonic) do: absent or JSON null leaves the zero value, a string is
taken verbatim, anything else is an unmarshal type error. -/
def decodeStrField (m : List (String × JValue)) (k : String) : Option String :=
  match lookupJ m k with
  | none => some ""
  | some .null => some ""
  | some (.str s) => some s
  | some _ => none

/-- Model of `sonic.Unmarshal(jsonData, &response)` restricted to what it can
observe: only the `"Meta Data"` key is bound (TimeSeries is tagged `-` and
rawData is unexported); `none` is the unmarshal error. -/
def decodeMetaData (env : List (String × JValue)) : Option MetaData :=
  match lookupJ env "Meta Data" with
  | none => some emptyMetaData
  | some .null => some emptyMetaData
  | some (.obj m) => do
    let i ← decodeStrField m "1. Information"
    let sy ← decodeStrField m "2. Symbol"
    let lr ← decodeStrField m "3. Last Refreshed"
    let iv ← decodeStrField m "4. Interval"
    let os ← decodeStrField m "5. Output Size"
    let tz ← decodeStrField m "6. Time Zone"
    some ⟨i, sy, lr, iv, os, tz⟩
  | some _ => none

/-- One OHLCV sub-field as `extractTimeSeries` reads it: the value when the
key is present with a string value, and the empty string otherwise. -/
def strField (m : List (String × JValue)) (k : String) : String :=
  match lookupJ m k with
  | some (.str s) => s
  | _ => ""

/-- The per-entry body of `extractTimeSeries`'s loop. -/
def entryToOHLCV (m : List (String × JValue)) : OHLCV :=
  ⟨strField m "1. open", strField m "2. high", strField m "3. low",
   strField m "4. close", strField m "5. volume"⟩

/-- Keep string-keyed-object entries (skip the rest), as the loop's
`continue` on the failed map assertion does. -/
def entryFilter : String × JValue → Option (String × OHLCV)
  | (ts, .obj m) => some (ts, entryToOHLCV m)
  | _ => none

/-- The entry collection built by `extractTimeSeries` from the series map. -/
def tsEntries (tsMap : List (String × JValue)) : List (String × OHLCV) :=
  tsMap.filterMap entryFilter

/-- Model of `(*AlphaVantageResponse).extractTimeSeries`: find the first key
whose lowercase form contains "time series", require its value to be an
object, and collect the well-shaped entries. -/
def extractTimeSeries (env : List (String × JValue)) :
    Except UpErr (List (String × OHLCV)) :=
  match env.find? (fun kv => strContains (toLowerStr kv.1) "time series") with
  | none => .error .noTimeSeries
  | some kv =>
    match kv.2 with
    | .obj tsMap => .ok (tsEntries tsMap)
    | _ => .error .badTimeSeriesFormat

/-- Model of `(*AlphaVantageResponse).processEntry`. -/
def processEntry (tsStr : String) (o : OHLCV) : Except RecErr OHLCVFloat :=
  match parseTimestamp tsStr with
  | none => .error (.invalidTimestamp tsStr)
  | some t =>
    match goParseFloat o.Open with
    | none => .error (.invalidPrice "open" tsStr)
    | some op =>
      match goParseFloat o.High with
      | none => .error (.invalidPrice "high" tsStr)
      | some hi =>
        match goParseFloat o.Low with
        | none => .error (.invalidPrice "low" tsStr)
        | some lo =>
          match goParseFloat o.Close with
          | none => .error (.invalidPrice "close" tsStr)
          | some cl =>
            match goParseInt o.Volume with
            | none => .error (.invalidVolume tsStr)
            | some vol => .ok ⟨t, op, hi, lo, cl, vol⟩

/-- Decode every entry in order, aborting on the first failure (the
sequential loop of `ProcessTimeSeries`; the worker pool processes the same
entries in a different order, see the permutation theorems). -/
def processList : List (String × OHLCV) → Except RecErr (List OHLCVFloat)
  | [] => .ok []
  | (ts, o) :: rest =>
    match processEntry ts o with
    | .error e => .error e
    | .ok r =>
      match processList rest with
      | .error e => .error e
      | .ok rs => .ok (r :: rs)

/-- The sort key comparison of `sort.Slice`'s `Before` predicate, weakened to
its non-strict form (the property the sorted output satisfies). -/
def recLE (a b : OHLCVFloat) : Prop := a.Timestamp ≤ b.Timestamp

/-- Strict chronological order on normalized records (`Before`). -/
def recLT (a b : OHLCVFloat) : Prop := a.Timestamp < b.Timestamp

instance : DecidableRel recLE := fun a b => Nat.decLe a.Timestamp b.Timestamp

instance : DecidableRel recLT := fun a b => Nat.decLt a.Timestamp b.Timestamp

instance : IsTotal OHLCVFloat recLE := ⟨fun a b => Nat.le_total a.Timestamp b.Timestamp⟩

instance : IsTrans OHLCVFloat recLE := ⟨fun _ _ _ h1 h2 => Nat.le_trans h1 h2⟩

instance : IsAntisymm OHLCVFloat recLT :=
  ⟨fun _ _ h1 h2 => absurd h1 (Nat.lt_asymm h2)⟩

/-- Model of `(*AlphaVantageResponse).ProcessTimeSeries`: decode all entries
(all-or-nothing) and sort the decoded records chronologically. -/
def processTimeSeries (r : AlphaVantageResponse) : Except RecErr IntradayStockOutput :=
  match r.timeSeries with
  | none => .ok ⟨r.metaData, []⟩
  | some l =>
    match processList l with
    | .error e => .error e
    | .ok rs => .ok ⟨r.metaData, List.insertionSort recLE rs⟩

/-- The tail of `IntradayPrices` once classification has passed: extract the
time series and return the populated response. -/
def proceedExtract (md : MetaData) (env : List (String × JValue)) :
    Except UpErr AlphaVantageResponse :=
  match extractTimeSeries env with
  | .error e => .error e
  | .ok ts => .ok ⟨md, some ts⟩

/-- Model of `parser.IntradayPrices` on an already-JSON-decoded envelope:
structured (metadata) unmarshal, then the error-classification checks in
source order, then time-series extraction. -/
def intradayPrices (env : List (String × JValue)) : Except UpErr AlphaVantageResponse :=
  match decodeMetaData env with
  | none => .error .structuredUnmarshal
  | some md =>
    match lookupJ env "Error Message" with
    | some v => .error (.apiError v)
    | none =>
      match lookupJ env "Note" with
      | some v => .error (.apiNote v)
      | none =>
        match lookupJ env "Information" with
        | some (.str s) =>
          if strContains (toLowerStr s) "rate limit" ∨ strContains (toLowerStr s) "premium"
          then .error (.apiRateLimit s)
          else .error (.apiInformation s)
        | _ => proceedExtract md env

/-- The whole normalization call: classification and extraction followed by
record decoding and sorting (`IntradayPrices` then `ProcessTimeSeries`). -/
def normalize (env : List (String × JValue)) : Except NormErr IntradayStockOutput :=
  match intradayPrices env with
  | .error e => .error (.upstream e)
  | .ok r =>
    match processTimeSeries r with
    | .error e => .error (.record e)
    | .ok out => .ok out

/-- Success test on an `Except` result. -/
def isOkE {ε α : Type} : Except ε α → Bool
  | .ok _ => true
  | .error _ => false

/-- Whether an `IntradayPrices` result is an upstream "Error Message"
failure (the `UpstreamError` kind). -/
def isApiErrorResult : Except UpErr AlphaVantageResponse → Bool
  | .error (.apiError _) => true
  | _ => false

/-- Errors of `intraday_price_stock.go`'s `validateResponse`, each carrying
the requested symbol interpolated into the Go message. -/
inductive RespErr where
  | noDataForSymbol (symbol : String)
  | missingInterval (symbol : String)
  | noTimeSeriesData (symbol : String)
deriving DecidableEq

/-- Model of `(*IntradayPriceStock).validateResponse`: the three integrity
checks in source order; the first failing one determines the error. -/
def validateResponse (data : IntradayStockOutput) (symbol : String) : Option RespErr :=
  if data.metaData.Symbol = "" then some (.noDataForSymbol symbol)
  else if data.metaData.Interval = "" then some (.missingInterval symbol)
  else if data.timeSeries.length = 0 then some (.noTimeSeriesData symbol)
  else none

/-- `models.IntradayPriceInput`. -/
structure IntradayPriceInput where
  Symbol : String
  Interval : String
  Adjusted : Option Bool
  ExtendedHours : Option Bool
  Month : Option String
  OutputSize : Option String

/-- Errors of `(*IntradayPriceStock).validateInput`. -/
inductive InputErr where
  | symbolErr (msg : String)
  | intervalErr (i : String)
  | outputSizeErr (o : String)
  | monthErr (m : String)
deriving DecidableEq

/-- The five supported intervals. -/
def intervalsValid : List String := ["1min", "5min", "15min", "30min", "60min"]

/-- The month shape check: byte length 7 and a hyphen byte at offset 4. -/
def monthShapeOk (m : String) : Bool :=
  (utf8Bytes m).length = 7 && (utf8Bytes m).getD 4 0 = 45

/-- The month branch of `validateInput`. -/
def monthCheck (input : IntradayPriceInput) : Option InputErr :=
  match input.Month with
  | some m => if !(monthShapeOk m) then some (.monthErr m) else none
  | none => none

/-- Model of `(*IntradayPriceStock).validateInput`: symbol, then interval,
then optional output size, then optional month shape. -/
def validateInput (input : IntradayPriceInput) : Option InputErr :=
  match ValidateSymbol input.Symbol with
  | some m => some (.symbolErr m)
  | none =>
    if !(intervalsValid.contains input.Interval) then some (.intervalErr input.Interval)
    else
      match input.OutputSize with
      | some o =>
        if !(["compact", "full"].contains o) then some (.outputSizeErr o)
        else monthCheck input
      | none => monthCheck input

/-- One query parameter, `request.Query`. -/
structure Query where
  name : String
  value : String
deriving DecidableEq

/-- Go's `fmt.Sprintf("%t", b)`. -/
def goBoolString (b : Bool) : String := if b then "true" else "false"

/-- Model of `(*IntradayPriceStock).buildQueries`: the two mandatory pairs
followed by one pair per non-nil optional field, in source order. -/
def buildQueries (input : IntradayPriceInput) : List Query :=
  [⟨"function", "TIME_SERIES_INTRADAY"⟩, ⟨"interval", input.Interval⟩]
  ++ (match input.Adjusted with
      | some b => [⟨"adjusted", goBoolString b⟩]
      | none => [])
  ++ (match input.ExtendedHours with
      | some b => [⟨"extended_hours", goBoolString b⟩]
      | none => [])
  ++ (match input.Month with
      | some m => [⟨"month", m⟩]
      | none => [])
  ++ (match input.OutputSize with
      | some o => [⟨"outputsize", o⟩]
      | none => [])

/-- Number of query pairs with the given name. -/
def countQ (qs : List Query) (n : String) : Nat :=
  (qs.filter (fun q => q.name == n)).length

/-- 1 for a present optional field, 0 for an absent one. -/
def optCount {α : Type} (o : Option α) : Nat := if o.isSome then 1 else 0

/-- The five OHLCV sub-fields of a raw record. -/
inductive FieldId where
  | fOpen
  | fHigh
  | fLow
  | fClose
  | fVolume
deriving DecidableEq

/-- The JSON sub-key of a field. -/
def fieldKey : FieldId → String
  | .fOpen => "1. open"
  | .fHigh => "2. high"
  | .fLow => "3. low"
  | .fClose => "4. close"
  | .fVolume => "5. volume"

/-- The raw string of a field inside an `OHLCV` record. -/
def fieldGet : FieldId → OHLCV → String
  | .fOpen, o => o.Open
  | .fHigh, o => o.High
  | .fLow, o => o.Low
  | .fClose, o => o.Close
  | .fVolume, o => o.Volume

/-- Whether a field's raw string decodes (float for prices, int for volume). -/
def fieldParsesB : FieldId → OHLCV → Bool
  | .fOpen, o => (goParseFloat o.Open).isSome
  | .fHigh, o => (goParseFloat o.High).isSome
  | .fLow, o => (goParseFloat o.Low).isSome
  | .fClose, o => (goParseFloat o.Close).isSome
  | .fVolume, o => (goParseInt o.Volume).isSome

/-- Position of a field in `processEntry`'s decode order. -/
def fieldIdx : FieldId → Nat
  | .fOpen => 0
  | .fHigh => 1
  | .fLow => 2
  | .fClose => 3
  | .fVolume => 4

/-- The error `processEntry` reports for a failing field. -/
def fieldErr : FieldId → String → RecErr
  | .fOpen, ts => .invalidPrice "open" ts
  | .fHigh, ts => .invalidPrice "high" ts
  | .fLow, ts => .invalidPrice "low" ts
  | .fClose, ts => .invalidPrice "close" ts
  | .fVolume, ts => .invalidVolume ts

/-- Modelled from the spec: the timestamp shape the specification describes,
a fully zero-padded fixed layout `YYYY-MM-DD HH:MM:SS` (four digits, hyphen,
two digits, hyphen, two digits, space, two digits, colon, two digits, colon,
two digits).  Used only to compare the spec's wording with the source's
`time.Parse` behaviour. -/
def specLayoutOk (s : String) : Bool :=
  match s.data with
  | [y1, y2, y3, y4, a1, m1, m2, a2, d1, d2, a3, h1, h2, a4, n1, n2, a5, s1, s2] =>
    isDigitC y1 && isDigitC y2 && isDigitC y3 && isDigitC y4 && a1 = '-' &&
    isDigitC m1 && isDigitC m2 && a2 = '-' && isDigitC d1 && isDigitC d2 &&
    a3 = ' ' && isDigitC h1 && isDigitC h2 && a4 = ':' && isDigitC n1 &&
    isDigitC n2 && a5 = ':' && isDigitC s1 && isDigitC s2
  | _ => false

/-- A series entry with the `"1. open"` sub-key missing. -/
def c1entry : List (String × JValue) :=
  [("2. high", .str "380.75"), ("3. low", .str "380.25"),
   ("4. close", .str "380.60"), ("5. volume", .str "75000")]

/-- Metadata object used by the concrete envelopes. -/
def c6mdObj : List (String × JValue) :=
  [("1. Information", .str "Intraday (5min) open, high, low, close prices and volume"),
   ("2. Symbol", .str "AAPL"), ("3. Last Refreshed", .str "2024-01-15 20:00:00"),
   ("4. Interval", .str "5min"), ("5. Output Size", .str "Compact"),
   ("6. Time Zone", .str "US/Eastern")]

/-- The decoded form of `c6mdObj`. -/
def c6md : MetaData :=
  ⟨"Intraday (5min) open, high, low, close prices and volume", "AAPL",
   "2024-01-15 20:00:00", "5min", "Compact", "US/Eastern"⟩

/-- Envelope whose only series entry misses the `"1. open"` sub-key. -/
def c1env : List (String × JValue) :=
  [("Meta Data", .obj c6mdObj),
   ("Time Series (5min)", .obj [("2024-01-15 16:00:00", .obj c1entry)])]

/-- Envelope with both upstream error keys and a non-object `"Meta Data"`. -/
def c3env : List (String × JValue) :=
  [("Error Message", .str "Invalid API call."), ("Note", .str "rate limited"),
   ("Meta Data", .num 1)]

/-- Envelope whose `"Information"` value is a JSON number, with a series. -/
def c4env : List (String × JValue) :=
  [("Information", .num 42), ("Time Series (1min)", .obj [])]

/-- Envelope whose recognized series key maps to the empty object. -/
def c6env : List (String × JValue) :=
  [("Meta Data", .obj c6mdObj), ("Time Series (5min)", .obj [])]

/-- The normalized output of `c6env`: metadata and zero records. -/
def c6out : IntradayStockOutput := ⟨c6md, []⟩

/-- A well-formed raw record (16:00 bar). -/
def w2o1 : OHLCV := ⟨"380.50", "380.75", "380.25", "380.60", "75000"⟩

/-- A well-formed raw record (15:59 bar). -/
def w2o2 : OHLCV := ⟨"380.20", "380.55", "380.15", "380.50", "68000"⟩

/-- Two well-formed entries, later timestamp first. -/
def w2l : List (String × OHLCV) :=
  [("2024-01-15 16:00:00", w2o1), ("2024-01-15 15:59:00", w2o2)]

/-- The same entries in the opposite order. -/
def w2lrev : List (String × OHLCV) :=
  [("2024-01-15 15:59:00", w2o2), ("2024-01-15 16:00:00", w2o1)]

/-- Decoded form of `w2o1`. -/
def w2r1 : OHLCVFloat :=
  ⟨mkInstant 2024 1 15 16 0 0, .finite false 38050 (-2) (-2),
   .finite false 38075 (-2) (-2), .finite false 38025 (-2) (-2),
   .finite false 38060 (-2) (-2), 75000⟩

/-- Decoded form of `w2o2`. -/
def w2r2 : OHLCVFloat :=
  ⟨mkInstant 2024 1 15 15 59 0, .finite false 38020 (-2) (-2),
   .finite false 38055 (-2) (-2), .finite false 38015 (-2) (-2),
   .finite false 38050 (-2) (-2), 68000⟩

/-- The sorted output of processing `w2l` (or any permutation of it). -/
def w2out : IntradayStockOutput := ⟨emptyMetaData, [w2r2, w2r1]⟩

/-- Raw record with negative prices and volume. -/
def oNeg : OHLCV := ⟨"-1.5", "-2", "-0.5", "-1", "-100"⟩

/-- Decoded form of `oNeg`. -/
def rNeg : OHLCVFloat :=
  ⟨mkInstant 2024 1 15 16 0 0, .finite true 15 (-1) (-1), .finite true 2 0 0,
   .finite true 5 (-1) (-1), .finite true 1 0 0, -100⟩

/-- Raw record whose five fields are all `"1"`. -/
def oOnes : OHLCV := ⟨"1", "1", "1", "1", "1"⟩

/-- Decoded form of `oOnes` at a one-digit-hour timestamp. -/
def rOnes : OHLCVFloat :=
  ⟨mkInstant 2024 1 15 5 0 0, .finite false 1 0 0, .finite false 1 0 0,
   .finite false 1 0 0, .finite false 1 0 0, 1⟩

/-- A fully-populated request input used to instantiate the query builder. -/
def w9input : IntradayPriceInput :=
  ⟨"AAPL", "5min", some true, some false, some "2024-01", some "full"⟩

/-- The decoded record of an entry that decodes successfully (used to express
`processList` as a `map` when every entry succeeds). -/
def entryVal (p : String × OHLCV) : OHLCVFloat :=
  match processEntry p.1 p.2 with
  | .ok r => r
  | .error _ => ⟨0, .nan, .nan, .nan, .nan, 0⟩

/-- An error envelope carrying both upstream error keys. -/
def w3env : List (String × JValue) :=
  [("Error Message", .str "Invalid API call."), ("Note", .str "limits")]

/-- An envelope whose `"Information"` value mentions the rate limit. -/
def w4env : List (String × JValue) :=
  [("Information", .str "Our standard API rate limit is 25 requests per day.")]

/-- A record decodes exactly when its timestamp and all five fields decode. -/
theorem processEntry_ok_iff (ts : String) (o : OHLCV) :
    isOkE (processEntry ts o) = true ↔
      (parseTimestamp ts).isSome = true ∧ (goParseFloat o.Open).isSome = true ∧
      (goParseFloat o.High).isSome = true ∧ (goParseFloat o.Low).isSome = true ∧
      (goParseFloat o.Close).isSome = true ∧ (goParseInt o.Volume).isSome = true := by
  cases h1 : parseTimestamp ts <;>
    cases h2 : goParseFloat o.Open <;>
      cases h3 : goParseFloat o.High <;>
        cases h4 : goParseFloat o.Low <;>
          cases h5 : goParseFloat o.Close <;>
            cases h6 : goParseInt o.Volume <;>
              simp [processEntry, isOkE, h1, h2, h3, h4, h5, h6]

/-- A successfully decoded record carries the parsed timestamp. -/
theorem processEntry_timestamp {ts : String} {o : OHLCV} {r : OHLCVFloat}
    (h : processEntry ts o = .ok r) : parseTimestamp ts = some r.Timestamp := by
  revert h
  cases h1 : parseTimestamp ts <;>
    cases h2 : goParseFloat o.Open <;>
      cases h3 : goParseFloat o.High <;>
        cases h4 : goParseFloat o.Low <;>
          cases h5 : goParseFloat o.Close <;>
            cases h6 : goParseInt o.Volume <;>
              simp [processEntry, h1, h2, h3, h4, h5, h6] <;>
                (intro h; rw [← h])

/-- `processList` succeeds exactly when every entry decodes. -/
theorem processList_ok_iff (l : List (String × OHLCV)) :
    isOkE (processList l) = true ↔ ∀ p ∈ l, isOkE (processEntry p.1 p.2) = true := by
  induction l with
  | nil => simp [processList, isOkE]
  | cons p rest ih =>
    obtain ⟨ts, o⟩ := p
    constructor
    · intro h q hq
      rcases List.mem_cons.mp hq with hq | hq
      · subst hq
        cases h1 : processEntry ts o with
        | ok r => simp [h1, isOkE]
        | error e => simp [processList, h1, isOkE] at h
      · cases h1 : processEntry ts o with
        | error e => simp [processList, h1, isOkE] at h
        | ok r =>
          have hrest : isOkE (processList rest) = true := by
            cases h2 : processList rest with
            | error e => simp [processList, h1, h2, isOkE] at h
            | ok rs => simp [isOkE]
          exact (ih.mp hrest) q hq
    · intro h
      have hp := h (ts, o) (List.mem_cons_self _ _)
      have hrest : isOkE (processList rest) = true :=
        ih.mpr (fun q hq => h q (List.mem_cons_of_mem _ hq))
      cases h1 : processEntry ts o with
      | error e => rw [h1] at hp; simp [isOkE] at hp
      | ok r =>
        cases h2 : processList rest with
        | error e => rw [h2] at hrest; simp [isOkE] at hrest
        | ok rs => simp [processList, h1, h2, isOkE]

/-- A successful `processList` relates input entries and records pointwise. -/
theorem processList_forall2 {l : List (String × OHLCV)} {rs : List OHLCVFloat}
    (h : processList l = .ok rs) :
    List.Forall₂ (fun p r => processEntry p.1 p.2 = .ok r) l rs := by
  induction l generalizing rs with
  | nil =>
    simp [processList] at h
    subst h
    exact .nil
  | cons p rest ih =>
    obtain ⟨ts, o⟩ := p
    cases h1 : processEntry ts o with
    | error e => simp [processList, h1] at h
    | ok r =>
      cases h2 : processList rest with
      | error e => simp [processList, h1, h2] at h
      | ok rs2 =>
        simp [processList, h1, h2] at h
        subst h
        exact .cons h1 (ih h2)

/-- When every entry decodes, `processList` is a `map`. -/
theorem processList_eq_map {l : List (String × OHLCV)}
    (h : ∀ p ∈ l, isOkE (processEntry p.1 p.2) = true) :
    processList l = .ok (l.map entryVal) := by
  induction l with
  | nil => simp [processList]
  | cons p rest ih =>
    obtain ⟨ts, o⟩ := p
    have hp := h (ts, o) (by simp)
    cases h1 : processEntry ts o with
    | error e => rw [h1] at hp; simp [isOkE] at hp
    | ok r =>
      have hrest := ih (fun q hq => h q (by simp [hq]))
      simp [processList, h1, hrest, entryVal]

/-- The first failing entry's error aborts the sequential pass. -/
theorem processList_append_err (l1 l2 : List (String × OHLCV))
    (p : String × OHLCV) (e : RecErr)
    (h1 : ∀ q ∈ l1, isOkE (processEntry q.1 q.2) = true)
    (h2 : processEntry p.1 p.2 = .error e) :
    processList (l1 ++ p :: l2) = .error e := by
  induction l1 with
  | nil =>
    obtain ⟨ts, o⟩ := p
    simp [processList, h2]
  | cons q rest ih =>
    obtain ⟨ts, o⟩ := q
    have hq := h1 (ts, o) (by simp)
    cases hq1 : processEntry ts o with
    | error e2 => rw [hq1] at hq; simp [isOkE] at hq
    | ok r =>
      have := ih (fun q2 hq2 => h1 q2 (by simp [hq2]))
      simp [processList, hq1, this]

/-- When the decode prefix up to field `f` succeeds but `f`'s string does
not decode, `processEntry` reports exactly `f`'s error. -/
theorem processEntry_err_field (f : FieldId) (ts : String) (o : OHLCV)
    (ht : (parseTimestamp ts).isSome = true)
    (hpre : ∀ g, fieldIdx g < fieldIdx f → fieldParsesB g o = true)
    (hf : fieldParsesB f o = false) :
    processEntry ts o = .error (fieldErr f ts) := by
  obtain ⟨t, ht⟩ := Option.isSome_iff_exists.mp ht
  cases f with
  | fOpen =>
    cases hO : goParseFloat o.Open with
    | some v => rw [fieldParsesB, hO] at hf; simp at hf
    | none => simp [processEntry, ht, hO, fieldErr]
  | fHigh =>
    obtain ⟨vO, hO⟩ := Option.isSome_iff_exists.mp (hpre .fOpen (by decide))
    cases hH : goParseFloat o.High with
    | some v => rw [fieldParsesB, hH] at hf; simp at hf
    | none => simp [processEntry, ht, hO, hH, fieldErr]
  | fLow =>
    obtain ⟨vO, hO⟩ := Option.isSome_iff_exists.mp (hpre .fOpen (by decide))
    obtain ⟨vH, hH⟩ := Option.isSome_iff_exists.mp (hpre .fHigh (by decide))
    cases hL : goParseFloat o.Low with
    | some v => rw [fieldParsesB, hL] at hf; simp at hf
    | none => simp [processEntry, ht, hO, hH, hL, fieldErr]
  | fClose =>
    obtain ⟨vO, hO⟩ := Option.isSome_iff_exists.mp (hpre .fOpen (by decide))
    obtain ⟨vH, hH⟩ := Option.isSome_iff_exists.mp (hpre .fHigh (by decide))
    obtain ⟨vL, hL⟩ := Option.isSome_iff_exists.mp (hpre .fLow (by decide))
    cases hC : goParseFloat o.Close with
    | some v => rw [fieldParsesB, hC] at hf; simp at hf
    | none => simp [processEntry, ht, hO, hH, hL, hC, fieldErr]
  | fVolume =>
    obtain ⟨vO, hO⟩ := Option.isSome_iff_exists.mp (hpre .fOpen (by decide))
    obtain ⟨vH, hH⟩ := Option.isSome_iff_exists.mp (hpre .fHigh (by decide))
    obtain ⟨vL, hL⟩ := Option.isSome_iff_exists.mp (hpre .fLow (by decide))
    obtain ⟨vC, hC⟩ := Option.isSome_iff_exists.mp (hpre .fClose (by decide))
    cases hV : goParseInt o.Volume with
    | some v => rw [fieldParsesB, hV] at hf; simp at hf
    | none => simp [processEntry, ht, hO, hH, hL, hC, hV, fieldErr]

/-- Upgrade a weakly sorted record list with pairwise distinct timestamps to
a strictly sorted one. -/
theorem sorted_lt_of_nodup {l : List OHLCVFloat}
    (hs : l.Sorted recLE) (hn : (l.map OHLCVFloat.Timestamp).Nodup) :
    l.Sorted recLT := by
  have hpair : l.Pairwise (fun a b => a.Timestamp ≠ b.Timestamp) :=
    List.pairwise_map.mp hn
  exact (hs.and hpair).imp (fun h => Nat.lt_of_le_of_ne h.1 h.2)

/-- A successful decode pass maps timestamps pointwise. -/
theorem forall2_timestamps {l : List (String × OHLCV)} {rs : List OHLCVFloat}
    (h : List.Forall₂ (fun p r => processEntry p.1 p.2 = .ok r) l rs) :
    l.map (fun p => parseTimestamp p.1) = rs.map (fun r => some r.Timestamp) := by
  induction h with
  | nil => rfl
  | cons h1 h2 ih => simp [processEntry_timestamp h1, ih]

/-- Distinct parsed timestamps on the input entries give distinct record
timestamps. -/
theorem nodup_timestamps {l : List (String × OHLCV)} {rs : List OHLCVFloat}
    (h : List.Forall₂ (fun p r => processEntry p.1 p.2 = .ok r) l rs)
    (hn : (l.map (fun p => parseTimestamp p.1)).Nodup) :
    (rs.map OHLCVFloat.Timestamp).Nodup := by
  rw [forall2_timestamps h] at hn
  have : rs.map (fun r => some r.Timestamp) =
      (rs.map OHLCVFloat.Timestamp).map some := by
    rw [List.map_map]
    rfl
  rw [this] at hn
  exact hn.of_map some

/-- Sorting is insensitive to the decode order when timestamps are
pairwise distinct. -/
theorem insertionSort_perm_eq {rs rs2 : List OHLCVFloat} (hperm : rs.Perm rs2)
    (hn : (rs.map OHLCVFloat.Timestamp).Nodup) :
    List.insertionSort recLE rs = List.insertionSort recLE rs2 := by
  have p1 := List.perm_insertionSort recLE rs
  have p2 := List.perm_insertionSort recLE rs2
  have hn2 : (rs2.map OHLCVFloat.Timestamp).Nodup :=
    ((hperm.map OHLCVFloat.Timestamp).nodup_iff).mp hn
  have hs1 := List.sorted_insertionSort recLE rs
  have hs2 := List.sorted_insertionSort recLE rs2
  have hn1s : ((List.insertionSort recLE rs).map OHLCVFloat.Timestamp).Nodup :=
    ((p1.map OHLCVFloat.Timestamp).nodup_iff).mpr hn
  have hn2s : ((List.insertionSort recLE rs2).map OHLCVFloat.Timestamp).Nodup :=
    ((p2.map OHLCVFloat.Timestamp).nodup_iff).mpr hn2
  exact List.eq_of_perm_of_sorted (p1.trans (hperm.trans p2.symm))
    (sorted_lt_of_nodup hs1 hn1s) (sorted_lt_of_nodup hs2 hn2s)

/-- A symbol character is ASCII, so it encodes as its own single byte. -/
theorem validChar_utf8 {c : Char} (h : isValidSymbolChar c = true) :
    charUtf8 c = [c.toNat] := by
  have hlt : c.toNat < 0x80 := by
    simp [isValidSymbolChar] at h
    rcases h with ⟨h1, h2⟩ | ⟨h1, h2⟩ | ⟨h1, h2⟩ | h1 <;> omega
  simp [charUtf8, hlt]

/-- Each character contributes at least one UTF-8 byte. -/
theorem charUtf8_len_pos (c : Char) : 1 ≤ (charUtf8 c).length := by
  unfold charUtf8
  split
  · simp
  · split
    · simp
    · split <;> simp

/-- The byte length of a string is at least its character count. -/
theorem listUtf8_len_ge (l : List Char) : l.length ≤ (listUtf8 l).length := by
  induction l with
  | nil => simp [listUtf8]
  | cons c rest ih =>
    have h1 := charUtf8_len_pos c
    show rest.length + 1 ≤ (charUtf8 c ++ listUtf8 rest).length
    rw [List.length_append]
    omega

/-- For all-ASCII symbol characters, byte length equals character count. -/
theorem listUtf8_len_eq {l : List Char}
    (h : ∀ c ∈ l, isValidSymbolChar c = true) :
    (listUtf8 l).length = l.length := by
  induction l with
  | nil => rfl
  | cons c rest ih =>
    have hc := validChar_utf8 (h c (by simp))
    have hrest := ih (fun x hx => h x (by simp [hx]))
    show (charUtf8 c ++ listUtf8 rest).length = rest.length + 1
    rw [List.length_append, hc, hrest]
    simp [Nat.add_comm]

/-- C8: the symbol validator fails with `InvalidSymbol` exactly when, after
trimming leading and trailing whitespace, the trimmed result is empty (with
the "empty" message, also for whitespace-only input), or exceeds 10
characters, or contains a character outside `[A-Za-z0-9.]`; otherwise it
succeeds without transforming the symbol.  In particular `"  aapl  "`
succeeds and `"VERYLONGSYMBOL"` fails with a message containing
"too long". -/
theorem C8_symbol_validator :
    (∀ s : String, (ValidateSymbol s).isSome = true ↔
      ((trimSpace s).data = [] ∨ 10 < (trimSpace s).data.length ∨
       ∃ c ∈ (trimSpace s).data, isValidSymbolChar c = false))
    ∧ (∀ s : String, trimSpace s = "" →
        ValidateSymbol s = some "symbol cannot be empty")
    ∧ ValidateSymbol "  aapl  " = none
    ∧ (ValidateSymbol "VERYLONGSYMBOL" =
        some "symbol \x27VERYLONGSYMBOL\x27 appears to be invalid (too long)"
       ∧ strContains
           "symbol \x27VERYLONGSYMBOL\x27 appears to be invalid (too long)"
           "too long" = true) := by
  refine ⟨?_, ?_, by decide, by decide, by decide⟩
  · intro s
    by_cases hem : (trimSpace s).data = []
    · simp [ValidateSymbol, hem]
    · by_cases hlen : 10 < (utf8Bytes (trimSpace s)).length
      · have hV : (ValidateSymbol s).isSome = true := by
          simp [ValidateSymbol, hem, hlen]
        rw [hV]
        simp only [true_iff]
        by_cases hbad : ∃ c ∈ (trimSpace s).data, isValidSymbolChar c = false
        · exact Or.inr (Or.inr hbad)
        · push_neg at hbad
          have hall : ∀ c ∈ (trimSpace s).data, isValidSymbolChar c = true := by
            intro c hc
            cases hv : isValidSymbolChar c with
            | true => rfl
            | false => exact absurd hv (hbad c hc)
          have heq := listUtf8_len_eq hall
          have hlen2 : 10 < (listUtf8 (trimSpace s).data).length := hlen
          exact Or.inr (Or.inl (by omega))
      · by_cases hany :
          (trimSpace s).data.any (fun c => !(isValidSymbolChar c)) = true
        · have hV : (ValidateSymbol s).isSome = true := by
            simp [ValidateSymbol, hem, hlen, hany]
          rw [hV]
          simp only [true_iff]
          obtain ⟨c, hc, hcb⟩ := List.any_eq_true.mp hany
          exact Or.inr (Or.inr ⟨c, hc, by simpa using hcb⟩)
        · have hV : ValidateSymbol s = none := by
            simp [ValidateSymbol, hem, hlen] at hany ⊢
            intro c hc
            exact hany c hc
          constructor
          · intro hcontra
            rw [hV] at hcontra
            simp at hcontra
          · intro hrhs
            exfalso
            rcases hrhs with h | h | ⟨c, hc, hcb⟩
            · exact hem h
            · have hge := listUtf8_len_ge (trimSpace s).data
              have h10 : ¬ 10 < (listUtf8 (trimSpace s).data).length := hlen
              omega
            · have : (trimSpace s).data.any (fun c => !(isValidSymbolChar c)) = true :=
                List.any_eq_true.mpr ⟨c, hc, by simp [hcb]⟩
              exact hany this
  · intro s hts
    have hd : (trimSpace s).data = [] := by rw [hts]
    simp [ValidateSymbol, hd]

/-- Witness for C8 at a whitespace-only input. -/
theorem C8_symbol_validator_witness :
    ValidateSymbol "   " = some "symbol cannot be empty" :=
  C8_symbol_validator.2.1 "   " (by decide)

/-- C6: the integrity checks run in order — empty metadata symbol reports
no-data-for-symbol, else empty interval reports a malformed response, else an
empty record sequence reports no-time-series-data, else the check passes; and
an envelope whose recognized series key maps to the empty object normalizes
to zero records without error and is then rejected with the
no-time-series-data error. -/
theorem C6_integrity_checks :
    (∀ (data : IntradayStockOutput) (sym : String),
      (data.metaData.Symbol = "" →
        validateResponse data sym = some (.noDataForSymbol sym)) ∧
      (data.metaData.Symbol ≠ "" → data.metaData.Interval = "" →
        validateResponse data sym = some (.missingInterval sym)) ∧
      (data.metaData.Symbol ≠ "" → data.metaData.Interval ≠ "" →
        data.timeSeries = [] →
        validateResponse data sym = some (.noTimeSeriesData sym)) ∧
      (data.metaData.Symbol ≠ "" → data.metaData.Interval ≠ "" →
        data.timeSeries ≠ [] → validateResponse data sym = none))
    ∧ (normalize c6env = .ok c6out ∧ c6out.timeSeries = [] ∧
       validateResponse c6out "AAPL" = some (.noTimeSeriesData "AAPL")) := by
  constructor
  · intro data sym
    refine ⟨?_, ?_, ?_, ?_⟩
    · intro h
      simp [validateResponse, h]
    · intro h1 h2
      simp [validateResponse, h1, h2]
    · intro h1 h2 h3
      simp [validateResponse, h1, h2, h3]
    · intro h1 h2 h3
      simp [validateResponse, h1, h2, List.length_eq_zero, h3]
  · exact ⟨rfl, rfl, rfl⟩

/-- Witness for C6 on a well-formed response. -/
theorem C6_integrity_checks_witness :
    validateResponse ⟨c6md, [w2r1]⟩ "AAPL" = none :=
  (C6_integrity_checks.1 ⟨c6md, [w2r1]⟩ "AAPL").2.2.2 (by decide) (by decide)
    (List.cons_ne_nil _ _)

/-- C3 (amended): once the structured metadata unmarshal has succeeded (it
runs before classification), an envelope containing "Error Message" fails
with the upstream-error kind even when "Note" is also present, and an
envelope containing "Note" but no "Error Message" fails with the
rate-limited kind regardless of the note's content. -/
theorem C3_error_priority :
    (∀ (env : List (String × JValue)) (v : JValue),
      (decodeMetaData env).isSome = true →
      lookupJ env "Error Message" = some v →
      intradayPrices env = .error (.apiError v))
    ∧ (∀ (env : List (String × JValue)) (v : JValue),
      (decodeMetaData env).isSome = true →
      lookupJ env "Error Message" = none →
      lookupJ env "Note" = some v →
      intradayPrices env = .error (.apiNote v)) := by
  constructor
  · intro env v hdec hem
    obtain ⟨md, hmd⟩ := Option.isSome_iff_exists.mp hdec
    simp [intradayPrices, hmd, hem]
  · intro env v hdec hem hnote
    obtain ⟨md, hmd⟩ := Option.isSome_iff_exists.mp hdec
    simp [intradayPrices, hmd, hem, hnote]

/-- Counterexample to C3 as stated: an envelope containing both "Error
Message" and "Note" (and a non-object "Meta Data") fails with the structured
unmarshal error, not with the upstream-error kind — the unmarshal step
precedes classification. -/
theorem C3_error_priority_cex :
    intradayPrices c3env = .error .structuredUnmarshal ∧
    isApiErrorResult (intradayPrices c3env) = false :=
  ⟨rfl, rfl⟩

/-- Witness for C3 on an envelope with both keys and no metadata. -/
theorem C3_error_priority_witness :
    intradayPrices w3env = .error (.apiError (.str "Invalid API call.")) :=
  C3_error_priority.1 w3env (.str "Invalid API call.") rfl rfl

/-- C4 (amended): with no "Error Message"/"Note" present, a string-valued
"Information" key fails the call — with the rate-limited kind when its
lowercase form contains "rate limit" or "premium", and with the
informational kind otherwise; a non-string "Information" value is ignored
and classification proceeds to structural parsing. -/
theorem C4_information_classification :
    (∀ (env : List (String × JValue)) (md : MetaData) (s : String),
      decodeMetaData env = some md →
      lookupJ env "Error Message" = none → lookupJ env "Note" = none →
      lookupJ env "Information" = some (.str s) →
      intradayPrices env =
        (if strContains (toLowerStr s) "rate limit" ∨ strContains (toLowerStr s) "premium"
         then .error (.apiRateLimit s) else .error (.apiInformation s)))
    ∧ (∀ (env : List (String × JValue)) (md : MetaData) (v : JValue),
      decodeMetaData env = some md →
      lookupJ env "Error Message" = none → lookupJ env "Note" = none →
      lookupJ env "Information" = some v → (∀ s, v ≠ .str s) →
      intradayPrices env = proceedExtract md env) := by
  constructor
  · intro env md s hmd hem hnote hinfo
    simp [intradayPrices, hmd, hem, hnote, hinfo]
  · intro env md v hmd hem hnote hinfo hs
    cases v with
    | str s => exact absurd rfl (hs s)
    | num n => simp [intradayPrices, hmd, hem, hnote, hinfo]
    | jbool b => simp [intradayPrices, hmd, hem, hnote, hinfo]
    | null => simp [intradayPrices, hmd, hem, hnote, hinfo]
    | arr a => simp [intradayPrices, hmd, hem, hnote, hinfo]
    | obj o => simp [intradayPrices, hmd, hem, hnote, hinfo]

/-- Counterexample to C4 as stated: an envelope whose "Information" value is
the JSON number 42 passes classification and structural parsing succeeds,
so classification does pass on although "Information" is present. -/
theorem C4_information_classification_cex :
    intradayPrices c4env = .ok ⟨emptyMetaData, some []⟩ ∧
    isOkE (intradayPrices c4env) = true :=
  ⟨rfl, rfl⟩

/-- Witness for C4 on a rate-limit information envelope. -/
theorem C4_information_classification_witness :
    intradayPrices w4env =
      .error (.apiRateLimit "Our standard API rate limit is 25 requests per day.") := by
  have h := C4_information_classification.1 w4env emptyMetaData
    "Our standard API rate limit is 25 requests per day." rfl rfl rfl rfl
  rw [h, if_pos (Or.inl (by decide))]

/-- The assembler succeeds exactly when the decode pass does. -/
theorem processTimeSeries_some_isOk (md : MetaData) (l : List (String × OHLCV)) :
    isOkE (processTimeSeries ⟨md, some l⟩) = isOkE (processList l) := by
  cases h : processList l with
  | error e => simp [processTimeSeries, h, isOkE]
  | ok rs => simp [processTimeSeries, h, isOkE]

/-- Shape of a successful assembly over decoded entries. -/
theorem processTimeSeries_some_ok {md : MetaData} {l : List (String × OHLCV)}
    {out : IntradayStockOutput}
    (h : processTimeSeries ⟨md, some l⟩ = .ok out) :
    ∃ rs, processList l = .ok rs ∧ out = ⟨md, List.insertionSort recLE rs⟩ := by
  cases hpl : processList l with
  | error e => simp [processTimeSeries, hpl] at h
  | ok rs =>
    refine ⟨rs, rfl, ?_⟩
    simp [processTimeSeries, hpl] at h
    exact h.symm

/-- Every successful assembly is weakly sorted. -/
theorem processTimeSeries_sorted {r : AlphaVantageResponse}
    {out : IntradayStockOutput}
    (h : processTimeSeries r = .ok out) : out.timeSeries.Sorted recLE := by
  cases hts : r.timeSeries with
  | none =>
    simp [processTimeSeries, hts] at h
    rw [← h]
    exact List.sorted_nil
  | some l =>
    rw [show r = ⟨r.metaData, r.timeSeries⟩ from rfl, hts] at h
    obtain ⟨rs, _, hout⟩ := processTimeSeries_some_ok h
    rw [hout]
    exact List.sorted_insertionSort recLE rs

/-- C2: every successfully normalized series is sorted ascending by
timestamp over adjacent pairs, and when the input entries carry pairwise
distinct timestamps the order is strictly ascending. -/
theorem C2_sort_invariant :
    (∀ (env : List (String × JValue)) (out : IntradayStockOutput),
      normalize env = .ok out → List.Chain' recLE out.timeSeries)
    ∧ (∀ (md : MetaData) (l : List (String × OHLCV)) (out : IntradayStockOutput),
      processTimeSeries ⟨md, some l⟩ = .ok out →
      (l.map (fun p => parseTimestamp p.1)).Nodup →
      List.Chain' recLT out.timeSeries) := by
  constructor
  · intro env out h
    cases h1 : intradayPrices env with
    | error e => simp [normalize, h1] at h
    | ok r =>
      cases h2 : processTimeSeries r with
      | error e => simp [normalize, h1, h2] at h
      | ok o =>
        simp [normalize, h1, h2] at h
        subst h
        exact (processTimeSeries_sorted h2).chain'
  · intro md l out h hnodup
    obtain ⟨rs, hpl, hout⟩ := processTimeSeries_some_ok h
    have hf2 := processList_forall2 hpl
    have hn : (rs.map OHLCVFloat.Timestamp).Nodup := nodup_timestamps hf2 hnodup
    have hperm := List.perm_insertionSort recLE rs
    have hns : ((List.insertionSort recLE rs).map OHLCVFloat.Timestamp).Nodup :=
      ((hperm.map OHLCVFloat.Timestamp).nodup_iff).mpr hn
    have hsorted :=
      sorted_lt_of_nodup (List.sorted_insertionSort recLE rs) hns
    rw [hout]
    exact hsorted.chain'

/-- Witness for C2 on a two-entry series given in reverse order. -/
theorem C2_sort_invariant_witness :
    List.Chain' recLT w2out.timeSeries :=
  C2_sort_invariant.2 emptyMetaData w2l w2out rfl (by decide)

/-- C5: processing the extracted mapping in any two entry orders — the
sequential pass and any worker-pool completion order — agrees: each succeeds
exactly when every entry decodes (all-or-nothing), success is invariant
under reordering, and with pairwise distinct timestamps the two sorted
outputs coincide. -/
theorem C5_order_equivalence :
    ∀ (md : MetaData) (l l2 : List (String × OHLCV)), l.Perm l2 →
      (isOkE (processTimeSeries ⟨md, some l⟩) = true ↔
        ∀ p ∈ l, isOkE (processEntry p.1 p.2) = true)
      ∧ (isOkE (processTimeSeries ⟨md, some l2⟩) = true ↔
         isOkE (processTimeSeries ⟨md, some l⟩) = true)
      ∧ ((l.map (fun p => parseTimestamp p.1)).Nodup →
         ∀ out out2, processTimeSeries ⟨md, some l⟩ = .ok out →
           processTimeSeries ⟨md, some l2⟩ = .ok out2 → out = out2) := by
  intro md l l2 hperm
  refine ⟨?_, ?_, ?_⟩
  · rw [processTimeSeries_some_isOk]
    exact processList_ok_iff l
  · rw [processTimeSeries_some_isOk, processTimeSeries_some_isOk,
      processList_ok_iff, processList_ok_iff]
    constructor
    · intro h p hp
      exact h p (hperm.mem_iff.mp hp)
    · intro h p hp
      exact h p (hperm.mem_iff.mpr hp)
  · intro hnodup out out2 h1 h2
    obtain ⟨rs, hpl, hout⟩ := processTimeSeries_some_ok h1
    obtain ⟨rs2, hpl2, hout2⟩ := processTimeSeries_some_ok h2
    have hallok : ∀ p ∈ l, isOkE (processEntry p.1 p.2) = true :=
      (processList_ok_iff l).mp (by simp [hpl, isOkE])
    have hallok2 : ∀ p ∈ l2, isOkE (processEntry p.1 p.2) = true :=
      fun p hp => hallok p (hperm.mem_iff.mpr hp)
    have hm1 : rs = l.map entryVal := by
      have h := processList_eq_map hallok
      rw [hpl] at h
      injection h
    have hm2 : rs2 = l2.map entryVal := by
      have h := processList_eq_map hallok2
      rw [hpl2] at h
      injection h
    have hrsperm : rs.Perm rs2 := by
      rw [hm1, hm2]
      exact hperm.map entryVal
    have hn : (rs.map OHLCVFloat.Timestamp).Nodup :=
      nodup_timestamps (processList_forall2 hpl) hnodup
    have heq := insertionSort_perm_eq hrsperm hn
    rw [hout, hout2, heq]

/-- Witness for C5 on the two-entry series and its reversal. -/
theorem C5_order_equivalence_witness :
    (isOkE (processTimeSeries ⟨emptyMetaData, some w2lrev⟩) = true ↔
      isOkE (processTimeSeries ⟨emptyMetaData, some w2l⟩) = true)
    ∧ w2out = w2out :=
  ⟨(C5_order_equivalence emptyMetaData w2l w2lrev (by decide)).2.1,
   (C5_order_equivalence emptyMetaData w2l w2lrev (by decide)).2.2
     (by decide) w2out w2out rfl rfl⟩

/-- A record whose field `f` does not decode never decodes as a whole. -/
theorem processEntry_fail_of_field (f : FieldId) (o : OHLCV) (ts : String)
    (hf : fieldParsesB f o = false) : isOkE (processEntry ts o) = false := by
  cases hE : processEntry ts o with
  | error e => simp [isOkE]
  | ok r =>
    have hall := (processEntry_ok_iff ts o).mp (by simp [hE, isOkE])
    cases f with
    | fOpen => rw [fieldParsesB, hall.2.1] at hf; cases hf
    | fHigh => rw [fieldParsesB, hall.2.2.1] at hf; cases hf
    | fLow => rw [fieldParsesB, hall.2.2.2.1] at hf; cases hf
    | fClose => rw [fieldParsesB, hall.2.2.2.2.1] at hf; cases hf
    | fVolume => rw [fieldParsesB, hall.2.2.2.2.2] at hf; cases hf

/-- A failing entry anywhere in the series fails the whole assembly. -/
theorem processTimeSeries_fail_of_mem (md : MetaData)
    (l : List (String × OHLCV)) (p : String × OHLCV) (hp : p ∈ l)
    (hbad : isOkE (processEntry p.1 p.2) = false) :
    isOkE (processTimeSeries ⟨md, some l⟩) = false := by
  rw [processTimeSeries_some_isOk]
  cases hok : isOkE (processList l) with
  | false => rfl
  | true =>
    have := (processList_ok_iff l).mp hok p hp
    rw [this] at hbad
    cases hbad

/-- An empty field string never decodes. -/
theorem fieldParsesB_empty (f : FieldId) (o : OHLCV)
    (h : fieldGet f o = "") : fieldParsesB f o = false := by
  cases f with
  | fOpen =>
    show (goParseFloat o.Open).isSome = false
    have h2 : o.Open = "" := h
    rw [h2]
    rfl
  | fHigh =>
    show (goParseFloat o.High).isSome = false
    have h2 : o.High = "" := h
    rw [h2]
    rfl
  | fLow =>
    show (goParseFloat o.Low).isSome = false
    have h2 : o.Low = "" := h
    rw [h2]
    rfl
  | fClose =>
    show (goParseFloat o.Close).isSome = false
    have h2 : o.Close = "" := h
    rw [h2]
    rfl
  | fVolume =>
    show (goParseInt o.Volume).isSome = false
    have h2 : o.Volume = "" := h
    rw [h2]
    rfl

/-- C1 (amended): a series entry that is not a string-keyed object is
silently dropped; an entry that is an object but misses one of the five
OHLCV sub-keys is retained with that field read as the empty string, and the
empty string does not decode, so the whole call fails; likewise any entry
field holding a non-numeric string fails the whole call, and no partial
sequence is returned. -/
theorem C1_leniency_strictness :
    (∀ (l1 l2 : List (String × JValue)) (ts : String) (v : JValue),
      (∀ m, v ≠ JValue.obj m) →
      tsEntries (l1 ++ (ts, v) :: l2) = tsEntries (l1 ++ l2))
    ∧ (∀ (f : FieldId) (m : List (String × JValue)),
      lookupJ m (fieldKey f) = none → fieldGet f (entryToOHLCV m) = "")
    ∧ (∀ (f : FieldId) (o : OHLCV) (ts : String),
      fieldParsesB f o = false → isOkE (processEntry ts o) = false)
    ∧ (∀ (f : FieldId) (o : OHLCV) (ts : String),
      fieldGet f o = "" → isOkE (processEntry ts o) = false)
    ∧ (∀ (md : MetaData) (l : List (String × OHLCV)) (p : String × OHLCV),
      p ∈ l → isOkE (processEntry p.1 p.2) = false →
      isOkE (processTimeSeries ⟨md, some l⟩) = false) := by
  refine ⟨?_, ?_, ?_, ?_, ?_⟩
  · intro l1 l2 ts v hv
    have hnone : entryFilter (ts, v) = none := by
      cases v with
      | obj m => exact absurd rfl (hv m)
      | str s => rfl
      | num n => rfl
      | jbool b => rfl
      | null => rfl
      | arr a => rfl
    simp [tsEntries, List.filterMap_append, List.filterMap_cons, hnone]
  · intro f m h
    cases f with
    | fOpen => simp [fieldGet, entryToOHLCV, strField, fieldKey] at h ⊢; rw [h]
    | fHigh => simp [fieldGet, entryToOHLCV, strField, fieldKey] at h ⊢; rw [h]
    | fLow => simp [fieldGet, entryToOHLCV, strField, fieldKey] at h ⊢; rw [h]
    | fClose => simp [fieldGet, entryToOHLCV, strField, fieldKey] at h ⊢; rw [h]
    | fVolume => simp [fieldGet, entryToOHLCV, strField, fieldKey] at h ⊢; rw [h]
  · exact processEntry_fail_of_field
  · intro f o ts h
    exact processEntry_fail_of_field f o ts (fieldParsesB_empty f o h)
  · exact processTimeSeries_fail_of_mem

/-- Counterexample to C1 as stated: the envelope whose only series entry
misses the `"1. open"` sub-key is not silently dropped — the whole
normalization call fails with the open-price parse error. -/
theorem C1_leniency_strictness_cex :
    normalize c1env =
      .error (.record (.invalidPrice "open" "2024-01-15 16:00:00")) :=
  rfl

/-- Witness for C1: a non-object series entry is dropped. -/
theorem C1_leniency_strictness_witness :
    tsEntries [("junk", JValue.str "junk")] = tsEntries [] :=
  C1_leniency_strictness.1 [] [] "junk" (JValue.str "junk")
    (fun m h => JValue.noConfusion h)

/-- C7 (amended): the record decoder succeeds exactly when the timestamp is
accepted by Go's reference-layout parse (4-digit year, zero-padded
month/day/minute/second, 1-or-2-digit hour, in-range calendar values) and
the four prices parse as 64-bit floats and the volume as a base-10 signed
64-bit integer; a timestamp mismatch reports the offending timestamp
string, a failing field reports that field together with the timestamp, and
no bounds checking is applied — negative prices and volumes are accepted. -/
theorem C7_record_decoder :
    (∀ (ts : String) (o : OHLCV), isOkE (processEntry ts o) = true ↔
      ((parseTimestamp ts).isSome = true ∧ (goParseFloat o.Open).isSome = true ∧
       (goParseFloat o.High).isSome = true ∧ (goParseFloat o.Low).isSome = true ∧
       (goParseFloat o.Close).isSome = true ∧ (goParseInt o.Volume).isSome = true))
    ∧ (∀ (ts : String) (o : OHLCV), parseTimestamp ts = none →
      processEntry ts o = .error (.invalidTimestamp ts))
    ∧ (∀ (f : FieldId) (ts : String) (o : OHLCV),
      (parseTimestamp ts).isSome = true →
      (∀ g, fieldIdx g < fieldIdx f → fieldParsesB g o = true) →
      fieldParsesB f o = false →
      processEntry ts o = .error (fieldErr f ts))
    ∧ processEntry "2024-01-15 16:00:00" oNeg = .ok rNeg := by
  refine ⟨processEntry_ok_iff, ?_, ?_, rfl⟩
  · intro ts o h
    simp [processEntry, h]
  · intro f ts o ht hpre hf
    exact processEntry_err_field f ts o ht hpre hf

/-- Counterexample to C7 as stated: `"2024-01-15 5:00:00"` does not match
the zero-padded fixed layout, yet the decoder returns a normalized record
for it (Go's hour field also matches a single digit). -/
theorem C7_record_decoder_cex :
    specLayoutOk "2024-01-15 5:00:00" = false ∧
    processEntry "2024-01-15 5:00:00" oOnes = .ok rOnes :=
  ⟨rfl, rfl⟩

/-- Witness for C7: an empty open price fails naming the field and the
timestamp. -/
theorem C7_record_decoder_witness :
    processEntry "2024-01-15 16:00:00" ⟨"", "1", "1", "1", "1"⟩ =
      .error (.invalidPrice "open" "2024-01-15 16:00:00") :=
  C7_record_decoder.2.2.1 .fOpen "2024-01-15 16:00:00" ⟨"", "1", "1", "1", "1"⟩
    (by decide) (fun g hg => absurd hg (Nat.not_lt_zero _)) (by decide)

/-- C10: a sub-key present with a non-string JSON value is read as the empty
string (never coerced); with an otherwise valid entry the call then fails
during record decoding with that field's parse error naming the timestamp,
and the failure aborts the whole series pass. -/
theorem C10_nonstring_subfields :
    (∀ (f : FieldId) (m : List (String × JValue)) (v : JValue),
      lookupJ m (fieldKey f) = some v → (∀ s, v ≠ JValue.str s) →
      fieldGet f (entryToOHLCV m) = "")
    ∧ (∀ (f : FieldId) (ts : String) (o : OHLCV),
      (parseTimestamp ts).isSome = true →
      (∀ g, g ≠ f → fieldParsesB g o = true) → fieldGet f o = "" →
      processEntry ts o = .error (fieldErr f ts))
    ∧ (∀ (md : MetaData) (l1 l2 : List (String × OHLCV)) (ts : String)
        (o : OHLCV) (e : RecErr),
      (∀ q ∈ l1, isOkE (processEntry q.1 q.2) = true) →
      processEntry ts o = .error e →
      processTimeSeries ⟨md, some (l1 ++ (ts, o) :: l2)⟩ = .error e) := by
  refine ⟨?_, ?_, ?_⟩
  · intro f m v hl hs
    have key : ∀ (k : String), lookupJ m k = some v → strField m k = "" := by
      intro k hk
      rw [strField, hk]
      cases v with
      | str s => exact absurd rfl (hs s)
      | num n => rfl
      | jbool b => rfl
      | null => rfl
      | arr a => rfl
      | obj mm => rfl
    cases f with
    | fOpen => exact key "1. open" hl
    | fHigh => exact key "2. high" hl
    | fLow => exact key "3. low" hl
    | fClose => exact key "4. close" hl
    | fVolume => exact key "5. volume" hl
  · intro f ts o ht hall hempty
    have hf : fieldParsesB f o = false := fieldParsesB_empty f o hempty
    have hpre : ∀ g, fieldIdx g < fieldIdx f → fieldParsesB g o = true :=
      fun g hg => hall g (fun hEq => absurd (hEq ▸ hg) (Nat.lt_irrefl _))
    exact processEntry_err_field f ts o ht hpre hf
  · intro md l1 l2 ts o e h1 h2
    have hl := processList_append_err l1 l2 (ts, o) e h1 h2
    simp [processTimeSeries, hl]

/-- Witness for C10: an empty high field with all other fields valid fails
with the high-price error. -/
theorem C10_nonstring_subfields_witness :
    processEntry "2024-01-15 16:00:00" ⟨"1", "", "1", "1", "1"⟩ =
      .error (.invalidPrice "high" "2024-01-15 16:00:00") :=
  C10_nonstring_subfields.2.1 .fHigh "2024-01-15 16:00:00" ⟨"1", "", "1", "1", "1"⟩
    (by decide)
    (fun g hg => by
      cases g with
      | fOpen => rfl
      | fHigh => exact absurd rfl hg
      | fLow => rfl
      | fClose => rfl
      | fVolume => rfl)
    rfl

/-- Boolean negation elimination used by the branch analyses below. -/
theorem bool_eq_false {b : Bool} (h : ¬ b = true) : b = false := by
  simpa using h

/-- C9: validation only passes when the interval is one of the five
supported values, a present output size is "compact" or "full", and a
present month has byte length 7 with a hyphen at offset 4 — violating any
of these fails validation; and for every input the built query list carries
the mandatory function and interval pairs plus exactly one pair per non-nil
optional field, booleans serialized as "true"/"false". -/
theorem C9_query_builder :
    (∀ input : IntradayPriceInput, validateInput input = none →
      input.Interval ∈ intervalsValid ∧
      (∀ o, input.OutputSize = some o → (o = "compact" ∨ o = "full")) ∧
      (∀ m, input.Month = some m → monthShapeOk m = true))
    ∧ (∀ input : IntradayPriceInput,
      (input.Interval ∉ intervalsValid ∨
       (∃ o, input.OutputSize = some o ∧ ¬(o = "compact" ∨ o = "full")) ∨
       (∃ m, input.Month = some m ∧ monthShapeOk m = false)) →
      (validateInput input).isSome = true)
    ∧ (∀ input : IntradayPriceInput,
      Query.mk "function" "TIME_SERIES_INTRADAY" ∈ buildQueries input ∧
      Query.mk "interval" input.Interval ∈ buildQueries input ∧
      countQ (buildQueries input) "adjusted" = optCount input.Adjusted ∧
      countQ (buildQueries input) "extended_hours" = optCount input.ExtendedHours ∧
      countQ (buildQueries input) "month" = optCount input.Month ∧
      countQ (buildQueries input) "outputsize" = optCount input.OutputSize ∧
      (∀ b, input.Adjusted = some b →
        Query.mk "adjusted" (goBoolString b) ∈ buildQueries input) ∧
      (∀ b, input.ExtendedHours = some b →
        Query.mk "extended_hours" (goBoolString b) ∈ buildQueries input) ∧
      (∀ m, input.Month = some m → Query.mk "month" m ∈ buildQueries input) ∧
      (∀ o, input.OutputSize = some o →
        Query.mk "outputsize" o ∈ buildQueries input)) := by
  refine ⟨?_, ?_, ?_⟩
  · intro input h
    cases hsym : ValidateSymbol input.Symbol with
    | some m =>
      simp only [validateInput, hsym] at h
      exact absurd h (by simp)
    | none =>
      simp only [validateInput, hsym] at h
      by_cases hint : intervalsValid.contains input.Interval
      case neg =>
        rw [if_pos (by rw [bool_eq_false hint]; rfl)] at h
        exact absurd h (by simp)
      case pos =>
        rw [if_neg (by rw [hint]; simp)] at h
        have hmem : input.Interval ∈ intervalsValid :=
          List.mem_of_elem_eq_true hint
        refine ⟨hmem, ?_, ?_⟩
        · intro o ho
          simp only [ho] at h
          by_cases hos : (["compact", "full"].contains o : Bool)
          · have := List.mem_of_elem_eq_true hos
            simpa using this
          · rw [if_pos (by rw [bool_eq_false hos]; rfl)] at h
            exact absurd h (by simp)
        · intro mo hmo
          have hmc : monthCheck input = none := by
            cases hos : input.OutputSize with
            | none => simpa only [hos] using h
            | some o =>
              simp only [hos] at h
              by_cases hosv : (["compact", "full"].contains o : Bool)
              · rw [if_neg (by rw [hosv]; simp)] at h
                exact h
              · rw [if_pos (by rw [bool_eq_false hosv]; rfl)] at h
                exact absurd h (by simp)
          simp only [monthCheck, hmo] at hmc
          by_cases hsh : monthShapeOk mo
          · exact hsh
          · rw [if_pos (by rw [bool_eq_false hsh]; rfl)] at hmc
            exact absurd hmc (by simp)
  · intro input hviol
    cases hsym : ValidateSymbol input.Symbol with
    | some m => simp [validateInput, hsym]
    | none =>
      simp only [validateInput, hsym]
      by_cases hint : intervalsValid.contains input.Interval
      case neg =>
        rw [if_pos (by rw [bool_eq_false hint]; rfl)]
        rfl
      case pos =>
        rw [if_neg (by rw [hint]; simp)]
        rcases hviol with hbad | ⟨o, ho, hbad⟩ | ⟨mo, hmo, hbad⟩
        · exact absurd (List.mem_of_elem_eq_true hint) hbad
        · simp only [ho]
          have hosv : (["compact", "full"].contains o : Bool) = false := by
            cases hc : (["compact", "full"].contains o : Bool) with
            | false => rfl
            | true =>
              have := List.mem_of_elem_eq_true hc
              exact absurd (by simpa using this) hbad
          rw [if_pos (by rw [hosv]; rfl)]
          rfl
        · have hmc : (monthCheck input).isSome = true := by
            simp only [monthCheck, hmo]
            rw [if_pos (by rw [hbad]; rfl)]
            rfl
          cases hos : input.OutputSize with
          | none => simpa only [hos] using hmc
          | some o =>
            simp only [hos]
            by_cases hosv : (["compact", "full"].contains o : Bool)
            · rw [if_neg (by rw [hosv]; simp)]
              exact hmc
            · rw [if_pos (by rw [bool_eq_false hosv]; rfl)]
              rfl
  · intro input
    rcases hA : input.Adjusted with _ | a <;>
      rcases hE : input.ExtendedHours with _ | e <;>
        rcases hM : input.Month with _ | mo <;>
          rcases hO : input.OutputSize with _ | os <;>
            simp [buildQueries, countQ, optCount, goBoolString, hA, hE, hM, hO]

/-- Witness for C9 on a fully-populated validated input. -/
theorem C9_query_builder_witness :
    ("5min" ∈ intervalsValid ∧ monthShapeOk "2024-01" = true) ∧
    Query.mk "adjusted" "true" ∈ buildQueries w9input ∧
    Query.mk "month" "2024-01" ∈ buildQueries w9input := by
  have h1 := C9_query_builder.1 w9input rfl
  have h3 := C9_query_builder.2.2 w9input
  exact ⟨⟨h1.1, h1.2.2 "2024-01" rfl⟩, h3.2.2.2.2.2.2.1 true rfl,
    h3.2.2.2.2.2.2.2.2.1 "2024-01" rfl⟩

end FinanceMCP
